import Mathlib

/-!
Shallow embedding of the `gym-dummy` environments
(`gym_dummy.envs.fobs.GreaterThanZeroEnv` and
`gym_dummy.envs.pobs.TwoInARowEnv`).

Randomness is externalised: every call that samples (`np.random.randn()`
in the sign-detection environment, `random.choice([0, 1])` in the
consecutive-match environment) takes the sampled value as an explicit
oracle argument (a rational standing for the real sample, a boolean
selecting between 0 and 1).  Python exceptions are modelled by an
`Except Err` result paired with the state as it stands when the
exception propagates (Python leaves earlier attribute mutations in
place when a later statement raises).
-/

deriving instance DecidableEq for Except

/-- Error kinds raised by the environments: `RuntimeError("Episode is done")`,
`ValueError("Invalid action", a)`, and Python `IndexError` from list
subscripting. -/
inductive Err
  | episodeExhausted
  | invalidAction
  | indexError
deriving DecidableEq

/-- Resolve a Python list index (which may be negative) against a list of
length `len`: `some n` with `n` the effective non-negative position, `none`
when the subscript would raise IndexError. -/
def pyIndex (len : Nat) (i : ℤ) : Option Nat :=
  if 0 ≤ i then
    if i < (len : ℤ) then some i.toNat else none
  else
    if 0 ≤ i + (len : ℤ) then some (i + (len : ℤ)).toNat else none

/-- Python `l[i]` (negative indices count from the end). -/
def pyGet (l : List α) (i : ℤ) : Option α :=
  (pyIndex l.length i).bind l.get?

/-- Replace the element at (non-negative) position `n` by `f` of it. -/
def listModify (l : List α) (n : Nat) (f : α → α) : List α :=
  match l, n with
  | [], _ => []
  | x :: xs, 0 => f x :: xs
  | x :: xs, Nat.succ m => x :: listModify xs m f

/-- Python `l[i].mutate(...)`: apply `f` to the element at Python index `i`,
`none` when the subscript would raise IndexError. -/
def pyModify (l : List α) (i : ℤ) (f : α → α) : Option (List α) :=
  match pyIndex l.length i with
  | none => none
  | some n => some (listModify l n f)

/-- Python slice `l[i:]` (here used for `l[-2:]`). -/
def pySliceFrom (l : List α) (i : ℤ) : List α :=
  if 0 ≤ i then l.drop i.toNat
  else l.drop (l.length - (-i).toNat)

/-! ## `GreaterThanZeroEnv` (gym_dummy/envs/fobs) -/

/-- State of a `GreaterThanZeroEnv` instance.  Observations are singleton
lists of a rational (standing for the float `[np.random.randn()]`). -/
structure GTZEnv where
  max_steps_per_episode : ℤ
  curr_episode : ℤ
  obs_episode_memory : List (List (List ℚ))
  action_episode_memory : List (List ℤ)
  curr_step : ℤ
deriving DecidableEq

/-- `GreaterThanZeroEnv.__init__(max_steps_per_episode)`. -/
def GTZEnv.init (m : ℤ) : GTZEnv :=
  { max_steps_per_episode := m
    curr_episode := -1
    obs_episode_memory := []
    action_episode_memory := []
    curr_step := 0 }

/-- `GreaterThanZeroEnv._get_reward`: reads the last action of the current
episode and the last recorded observation; `+1` when the observation's sign
matches the action, `-1` otherwise. -/
def GTZEnv.get_reward (e : GTZEnv) : Option ℤ := do
  let acts ← pyGet e.action_episode_memory e.curr_episode
  let action ← pyGet acts (-1)
  let obss ← pyGet e.obs_episode_memory e.curr_episode
  let last_obs ← pyGet obss (-1)
  let o ← pyGet last_obs 0
  if 0 < o then
    pure (if action = 1 then 1 else -1)
  else
    pure (if action = 1 then -1 else 1)

/-- `GreaterThanZeroEnv.step(action)`.  `sample` is the value
`np.random.randn()` drawn inside `_get_obs`.  Returns the
`(ob, reward, done)` tuple (the info dict is always `{}`) or the error
raised, together with the state as left behind. -/
def GTZEnv.step (e : GTZEnv) (action : ℤ) (sample : ℚ) :
    Except Err (List ℚ × ℤ × Bool) × GTZEnv :=
  if e.curr_step ≥ e.max_steps_per_episode then
    (.error .episodeExhausted, e)
  else
    match pyModify e.action_episode_memory e.curr_episode
        (fun l => l ++ [action]) with
    | none =>
      (.error .indexError, { e with curr_step := e.curr_step + 1 })
    | some am =>
      if action = 0 ∨ action = 1 then
        match GTZEnv.get_reward { e with
          curr_step := e.curr_step + 1
          action_episode_memory := am } with
        | none =>
          (.error .indexError, { e with
            curr_step := e.curr_step + 1
            action_episode_memory := am })
        | some reward =>
          match pyModify e.obs_episode_memory e.curr_episode
              (fun l => l ++ [[sample]]) with
          | none =>
            (.error .indexError, { e with
              curr_step := e.curr_step + 1
              action_episode_memory := am })
          | some om =>
            (.ok ([sample], reward,
               decide (e.curr_step + 1 ≥ e.max_steps_per_episode)),
             { e with
               curr_step := e.curr_step + 1
               action_episode_memory := am
               obs_episode_memory := om })
      else
        (.error .invalidAction, { e with
          curr_step := e.curr_step + 1
          action_episode_memory := am })

/-- `GreaterThanZeroEnv.reset()`.  `sample` is the value `np.random.randn()`
drawn for the initial observation. -/
def GTZEnv.reset (e : GTZEnv) (sample : ℚ) : List ℚ × GTZEnv :=
  ([sample],
   { e with
     curr_step := 0
     curr_episode := e.curr_episode + 1
     action_episode_memory := e.action_episode_memory ++ [[]]
     obs_episode_memory := e.obs_episode_memory ++ [[[sample]]] })

/-- Run a list of `step` calls, requiring each to succeed. -/
def GTZEnv.runSteps (e : GTZEnv) : List (ℤ × ℚ) → Option GTZEnv
  | [] => some e
  | (a, q) :: rest =>
    match e.step a q with
    | (.ok _, e1) => e1.runSteps rest
    | (.error _, _) => none

/-- States reachable by any sequence of `reset`/`step` calls (including
failing ones) from a freshly constructed `GreaterThanZeroEnv`. -/
inductive GTZReachable : GTZEnv → Prop
  | init (m : ℤ) : GTZReachable (GTZEnv.init m)
  | reset (e : GTZEnv) (q : ℚ) : GTZReachable e → GTZReachable (e.reset q).2
  | step (e : GTZEnv) (a : ℤ) (q : ℚ) :
      GTZReachable e → GTZReachable (e.step a q).2

/-! ## `TwoInARowEnv` (gym_dummy/envs/pobs) -/

/-- State of a `TwoInARowEnv` instance.  Observations are singleton lists
of an integer drawn from {0, 1}. -/
structure TIREnv where
  max_steps_per_episode : ℤ
  curr_episode : ℤ
  obs_episode_memory : List (List (List ℤ))
  action_episode_memory : List (List ℤ)
  curr_step : ℤ
deriving DecidableEq

/-- `TwoInARowEnv.__init__(max_steps_per_episode)`. -/
def TIREnv.init (m : ℤ) : TIREnv :=
  { max_steps_per_episode := m
    curr_episode := -1
    obs_episode_memory := []
    action_episode_memory := []
    curr_step := 0 }

/-- `TwoInARowEnv._get_obs`: `[random.choice([0, 1])]`, with the coin flip
externalised as a boolean. -/
def TIREnv.get_obs (b : Bool) : List ℤ :=
  [if b then 1 else 0]

/-- `TwoInARowEnv._get_reward`: first step of the episode (fewer than two
recorded observations) rewards action 0; later steps reward action 1 when
the last two recorded observations are equal and action 0 otherwise. -/
def TIREnv.get_reward (e : TIREnv) : Option ℤ := do
  let acts ← pyGet e.action_episode_memory e.curr_episode
  let action ← pyGet acts (-1)
  let obss ← pyGet e.obs_episode_memory e.curr_episode
  if obss.length < 2 then
    pure (if action = 0 then 1 else -1)
  else
    let last_n_obs := pySliceFrom obss (-2)
    let o0 ← pyGet last_n_obs 0
    let o1 ← pyGet last_n_obs 1
    if o0 = o1 then
      pure (if action = 1 then 1 else -1)
    else
      pure (if action = 0 then 1 else -1)

/-- `TwoInARowEnv.step(action)`.  `b` is the coin flip drawn inside
`_get_obs`. -/
def TIREnv.step (e : TIREnv) (action : ℤ) (b : Bool) :
    Except Err (List ℤ × ℤ × Bool) × TIREnv :=
  if e.curr_step ≥ e.max_steps_per_episode then
    (.error .episodeExhausted, e)
  else
    match pyModify e.action_episode_memory e.curr_episode
        (fun l => l ++ [action]) with
    | none =>
      (.error .indexError, { e with curr_step := e.curr_step + 1 })
    | some am =>
      if action = 0 ∨ action = 1 then
        match TIREnv.get_reward { e with
          curr_step := e.curr_step + 1
          action_episode_memory := am } with
        | none =>
          (.error .indexError, { e with
            curr_step := e.curr_step + 1
            action_episode_memory := am })
        | some reward =>
          match pyModify e.obs_episode_memory e.curr_episode
              (fun l => l ++ [TIREnv.get_obs b]) with
          | none =>
            (.error .indexError, { e with
              curr_step := e.curr_step + 1
              action_episode_memory := am })
          | some om =>
            (.ok (TIREnv.get_obs b, reward,
               decide (e.curr_step + 1 ≥ e.max_steps_per_episode)),
             { e with
               curr_step := e.curr_step + 1
               action_episode_memory := am
               obs_episode_memory := om })
      else
        (.error .invalidAction, { e with
          curr_step := e.curr_step + 1
          action_episode_memory := am })

/-- `TwoInARowEnv.reset()`.  `b` is the coin flip drawn inside `_get_obs`. -/
def TIREnv.reset (e : TIREnv) (b : Bool) : List ℤ × TIREnv :=
  (TIREnv.get_obs b,
   { e with
     curr_step := 0
     curr_episode := e.curr_episode + 1
     action_episode_memory := e.action_episode_memory ++ [[]]
     obs_episode_memory := e.obs_episode_memory ++ [[TIREnv.get_obs b]] })

/-- Run a list of `step` calls, requiring each to succeed. -/
def TIREnv.runSteps (e : TIREnv) : List (ℤ × Bool) → Option TIREnv
  | [] => some e
  | (a, b) :: rest =>
    match e.step a b with
    | (.ok _, e1) => e1.runSteps rest
    | (.error _, _) => none

/-- States reachable by any sequence of `reset`/`step` calls (including
failing ones) from a freshly constructed `TwoInARowEnv`. -/
inductive TIRReachable : TIREnv → Prop
  | init (m : ℤ) : TIRReachable (TIREnv.init m)
  | reset (e : TIREnv) (b : Bool) : TIRReachable e → TIRReachable (e.reset b).2
  | step (e : TIREnv) (a : ℤ) (b : Bool) :
      TIRReachable e → TIRReachable (e.step a b).2

/-- `TwoInARowEnv.q_values`: the four fixed two-step observation sequences
the model is queried on, in order. -/
def TIREnv.q_values_inputs : List (List (List ℤ)) :=
  [[[0], [0]], [[1], [1]], [[0], [1]], [[1], [0]]]

/-- The labels `str(_inp[0])` collected by the comprehension inside
`q_values` (Python `[str(_inp[0]) for _inp in inp]`), `none` when a
subscript would raise IndexError. -/
def TIREnv.q_values_strs : List (List ℤ) → Option (List String)
  | [] => some []
  | l :: rest => do
    let x ← pyGet l 0
    let rest2 ← TIREnv.q_values_strs rest
    pure (toString x :: rest2)

/-- One row of the table passed to `tabulate`: the comma-joined observation
sequence and the model's first prediction row (Python
`[inp_str] + list(preds[i][0])`). -/
def TIREnv.q_values_row (inp : List (List ℤ)) (pred : List (List ℚ)) :
    Option (String × List ℚ) := do
  let strs ← TIREnv.q_values_strs inp
  let v ← pyGet pred 0
  pure (String.intercalate "," strs, v)

/-- The `data` list built by the loop in `q_values`, one row per input
sequence, paired positionally with the prediction list (`preds[i]`). -/
def TIREnv.q_values_rows :
    List (List (List ℤ)) → List (List (List ℚ)) →
    Option (List (String × List ℚ))
  | [], _ => some []
  | _ :: _, [] => none
  | inp :: rest, pred :: prest => do
    let row ← TIREnv.q_values_row inp pred
    let rows ← TIREnv.q_values_rows rest prest
    pure (row :: rows)

/-- `TwoInARowEnv.q_values(model)`.  The external model is the function
`predict`; the external `tabulate` library is the function `tab` (headers,
rows).  The environment state is returned unchanged alongside the result. -/
def TIREnv.q_values (e : TIREnv)
    (predict : List (List ℤ) → List (List ℚ))
    (tab : List String → List (String × List ℚ) → String) :
    Except Err String × TIREnv :=
  match TIREnv.q_values_rows TIREnv.q_values_inputs
      (TIREnv.q_values_inputs.map predict) with
  | none => (.error .indexError, e)
  | some data =>
    (.ok ("\n" ++ tab ["Obs. Seq", "Action 0", "Action 1"] data ++ "\n"), e)

/-! ## Concrete states used by witnesses -/

/-- A freshly reset sign-detection environment whose seed observation is
`mkRat 1 2 = 0.5`. -/
def GTZW : GTZEnv := ((GTZEnv.init 100).reset (mkRat 1 2)).2

/-- `GTZW` after one `step(1)` call (next sampled observation 0). -/
def GTZW1 : GTZEnv := (GTZW.step 1 0).2

/-- A freshly reset sign-detection environment allowing a single step. -/
def GTZM1 : GTZEnv := ((GTZEnv.init 1).reset 1).2

/-- A freshly reset consecutive-match environment (seed observation 1). -/
def TIRW : TIREnv := ((TIREnv.init 100).reset true).2

/-! ## Helper lemmas on the Python-list primitives -/

theorem pyIndex_some_lt {len : Nat} {i : ℤ} {n : Nat}
    (h : pyIndex len i = some n) : n < len := by
  unfold pyIndex at h
  split at h
  · split at h
    · have := Option.some.inj h
      omega
    · exact Option.noConfusion h
  · split at h
    · have := Option.some.inj h
      omega
    · exact Option.noConfusion h

theorem listModify_length (l : List α) (n : Nat) (f : α → α) :
    (listModify l n f).length = l.length := by
  induction l generalizing n with
  | nil => rfl
  | cons x xs ih =>
    cases n with
    | zero => rfl
    | succ m => simp [listModify, ih]

theorem get?_listModify (l : List α) (n : Nat) (f : α → α) :
    (listModify l n f).get? n = (l.get? n).map f := by
  induction l generalizing n with
  | nil => cases n <;> rfl
  | cons x xs ih =>
    cases n with
    | zero => rfl
    | succ m => simpa [listModify] using ih m

theorem get?_listModify_ne (l : List α) (n m : Nat) (f : α → α)
    (h : n ≠ m) : (listModify l n f).get? m = l.get? m := by
  induction l generalizing n m with
  | nil => cases n <;> rfl
  | cons x xs ih =>
    cases n with
    | zero =>
      cases m with
      | zero => exact absurd rfl h
      | succ k => rfl
    | succ j =>
      cases m with
      | zero => rfl
      | succ k => simpa [listModify] using ih j k (by omega)

theorem pyModify_some_inv {l : List α} {i : ℤ} {f : α → α} {l' : List α}
    (h : pyModify l i f = some l') :
    ∃ n, pyIndex l.length i = some n ∧ l' = listModify l n f := by
  unfold pyModify at h
  split at h
  · exact Option.noConfusion h
  · exact ⟨_, by assumption, (Option.some.inj h).symm⟩

theorem pyModify_length {l : List α} {i : ℤ} {f : α → α} {l' : List α}
    (h : pyModify l i f = some l') : l'.length = l.length := by
  obtain ⟨n, _, rfl⟩ := pyModify_some_inv h
  exact listModify_length l n f

theorem pyGet_eq_some_of_pyIndex {l : List α} {i : ℤ} {n : Nat}
    (h : pyIndex l.length i = some n) :
    ∃ x, l.get? n = some x ∧ pyGet l i = some x := by
  have hn := pyIndex_some_lt h
  refine ⟨l.get ⟨n, hn⟩, List.get?_eq_get hn, ?_⟩
  simp [pyGet, h, List.get?_eq_get hn]

theorem pyGet_pyModify_self {l : List α} {i : ℤ} {f : α → α} {l' : List α}
    {x : α} (h : pyModify l i f = some l') (hx : pyGet l i = some x) :
    pyGet l' i = some (f x) := by
  obtain ⟨n, hidx, rfl⟩ := pyModify_some_inv h
  have hx' : l.get? n = some x := by
    unfold pyGet at hx
    rw [hidx] at hx
    simpa using hx
  unfold pyGet
  rw [listModify_length, hidx, Option.some_bind, get?_listModify, hx']
  rfl

theorem pyGet_concat_last (l : List α) (x : α) :
    pyGet (l ++ [x]) (l.length : ℤ) = some x := by
  unfold pyGet pyIndex
  rw [if_pos (by positivity), if_pos (by simp)]
  simp [List.getElem?_concat_length]

theorem pyGet_concat_neg_one (l : List α) (x : α) :
    pyGet (l ++ [x]) (-1) = some x := by
  unfold pyGet pyIndex
  rw [if_neg (by norm_num), if_pos (by simp)]
  have : ((-1 : ℤ) + ((l ++ [x]).length : ℤ)).toNat = l.length := by
    simp
  rw [this, Option.some_bind]
  simp [List.getElem?_concat_length]

theorem gtz_step_ok_inv {e : GTZEnv} {a : ℤ} {q : ℚ}
    {out : List ℚ × ℤ × Bool} {e' : GTZEnv}
    (h : e.step a q = (.ok out, e')) :
    e.curr_step < e.max_steps_per_episode ∧ (a = 0 ∨ a = 1) ∧
    ∃ am om reward,
      pyModify e.action_episode_memory e.curr_episode
        (fun l => l ++ [a]) = some am ∧
      GTZEnv.get_reward { e with
        curr_step := e.curr_step + 1
        action_episode_memory := am } = some reward ∧
      pyModify e.obs_episode_memory e.curr_episode
        (fun l => l ++ [[q]]) = some om ∧
      out = ([q], reward, decide (e.curr_step + 1 ≥ e.max_steps_per_episode)) ∧
      e' = { e with
        curr_step := e.curr_step + 1
        action_episode_memory := am
        obs_episode_memory := om } := by
  unfold GTZEnv.step at h
  split at h
  · simp at h
  next hge =>
    split at h
    · simp at h
    next am hm =>
      split at h
      next hval =>
        split at h
        · simp at h
        next reward hr =>
          split at h
          · simp at h
          next om hom =>
            simp only [Prod.mk.injEq, Except.ok.injEq] at h
            obtain ⟨h1, h2⟩ := h
            exact ⟨by omega, hval, am, om, reward, hm, hr, hom,
              h1.symm, h2.symm⟩
      next hval =>
        simp at h

theorem tir_step_ok_inv {e : TIREnv} {a : ℤ} {b : Bool}
    {out : List ℤ × ℤ × Bool} {e' : TIREnv}
    (h : e.step a b = (.ok out, e')) :
    e.curr_step < e.max_steps_per_episode ∧ (a = 0 ∨ a = 1) ∧
    ∃ am om reward,
      pyModify e.action_episode_memory e.curr_episode
        (fun l => l ++ [a]) = some am ∧
      TIREnv.get_reward { e with
        curr_step := e.curr_step + 1
        action_episode_memory := am } = some reward ∧
      pyModify e.obs_episode_memory e.curr_episode
        (fun l => l ++ [TIREnv.get_obs b]) = some om ∧
      out = (TIREnv.get_obs b, reward,
        decide (e.curr_step + 1 ≥ e.max_steps_per_episode)) ∧
      e' = { e with
        curr_step := e.curr_step + 1
        action_episode_memory := am
        obs_episode_memory := om } := by
  unfold TIREnv.step at h
  split at h
  · simp at h
  next hge =>
    split at h
    · simp at h
    next am hm =>
      split at h
      next hval =>
        split at h
        · simp at h
        next reward hr =>
          split at h
          · simp at h
          next om hom =>
            simp only [Prod.mk.injEq, Except.ok.injEq] at h
            obtain ⟨h1, h2⟩ := h
            exact ⟨by omega, hval, am, om, reward, hm, hr, hom,
              h1.symm, h2.symm⟩
      next hval =>
        simp at h

theorem gtz_step_state_post (e : GTZEnv) (a : ℤ) (q : ℚ) :
    (e.step a q).2.max_steps_per_episode = e.max_steps_per_episode ∧
    (e.step a q).2.curr_episode = e.curr_episode ∧
    ((e.step a q).2.curr_step = e.curr_step ∨
     ((e.step a q).2.curr_step = e.curr_step + 1 ∧
      e.curr_step < e.max_steps_per_episode)) := by
  unfold GTZEnv.step
  split
  next hge => exact ⟨rfl, rfl, Or.inl rfl⟩
  next hge =>
    split
    · exact ⟨rfl, rfl, Or.inr ⟨rfl, by omega⟩⟩
    · split
      · split
        · exact ⟨rfl, rfl, Or.inr ⟨rfl, by omega⟩⟩
        · split
          · exact ⟨rfl, rfl, Or.inr ⟨rfl, by omega⟩⟩
          · exact ⟨rfl, rfl, Or.inr ⟨rfl, by omega⟩⟩
      · exact ⟨rfl, rfl, Or.inr ⟨rfl, by omega⟩⟩

theorem tir_step_state_post (e : TIREnv) (a : ℤ) (b : Bool) :
    (e.step a b).2.max_steps_per_episode = e.max_steps_per_episode ∧
    (e.step a b).2.curr_episode = e.curr_episode ∧
    ((e.step a b).2.curr_step = e.curr_step ∨
     ((e.step a b).2.curr_step = e.curr_step + 1 ∧
      e.curr_step < e.max_steps_per_episode)) := by
  unfold TIREnv.step
  split
  next hge => exact ⟨rfl, rfl, Or.inl rfl⟩
  next hge =>
    split
    · exact ⟨rfl, rfl, Or.inr ⟨rfl, by omega⟩⟩
    · split
      · split
        · exact ⟨rfl, rfl, Or.inr ⟨rfl, by omega⟩⟩
        · split
          · exact ⟨rfl, rfl, Or.inr ⟨rfl, by omega⟩⟩
          · exact ⟨rfl, rfl, Or.inr ⟨rfl, by omega⟩⟩
      · exact ⟨rfl, rfl, Or.inr ⟨rfl, by omega⟩⟩

theorem gtz_runSteps_facts (ms : List (ℤ × ℚ)) :
    ∀ e e' : GTZEnv, GTZEnv.runSteps e ms = some e' →
    e'.curr_step = e.curr_step + ms.length ∧
    e'.max_steps_per_episode = e.max_steps_per_episode := by
  induction ms with
  | nil =>
    intro e e' h
    unfold GTZEnv.runSteps at h
    obtain rfl := Option.some.inj h
    simp
  | cons m rest ih =>
    intro e e' h
    obtain ⟨a, q⟩ := m
    unfold GTZEnv.runSteps at h
    split at h
    next out e1 heq =>
      obtain ⟨-, -, am, om, reward, -, -, -, -, he1⟩ := gtz_step_ok_inv heq
      obtain ⟨ih1, ih2⟩ := ih e1 e' h
      have h1 : e1.curr_step = e.curr_step + 1 := by rw [he1]
      have h2 : e1.max_steps_per_episode = e.max_steps_per_episode := by
        rw [he1]
      constructor
      · rw [ih1, h1]
        simp only [List.length_cons]
        omega
      · rw [ih2, h2]
    next => exact Option.noConfusion h

theorem tir_runSteps_facts (ms : List (ℤ × Bool)) :
    ∀ e e' : TIREnv, TIREnv.runSteps e ms = some e' →
    e'.curr_step = e.curr_step + ms.length ∧
    e'.max_steps_per_episode = e.max_steps_per_episode := by
  induction ms with
  | nil =>
    intro e e' h
    unfold TIREnv.runSteps at h
    obtain rfl := Option.some.inj h
    simp
  | cons m rest ih =>
    intro e e' h
    obtain ⟨a, b⟩ := m
    unfold TIREnv.runSteps at h
    split at h
    next out e1 heq =>
      obtain ⟨-, -, am, om, reward, -, -, -, -, he1⟩ := tir_step_ok_inv heq
      obtain ⟨ih1, ih2⟩ := ih e1 e' h
      have h1 : e1.curr_step = e.curr_step + 1 := by rw [he1]
      have h2 : e1.max_steps_per_episode = e.max_steps_per_episode := by
        rw [he1]
      constructor
      · rw [ih1, h1]
        simp only [List.length_cons]
        omega
      · rw [ih2, h2]
    next => exact Option.noConfusion h

theorem gtz_step_ok_active {e : GTZEnv} {a : ℤ} {q : ℚ}
    {out : List ℚ × ℤ × Bool} {e' : GTZEnv}
    {acts : List ℤ} {obss : List (List ℚ)}
    (h : e.step a q = (.ok out, e'))
    (hacts : pyGet e.action_episode_memory e.curr_episode = some acts)
    (hobss : pyGet e.obs_episode_memory e.curr_episode = some obss) :
    pyGet e'.action_episode_memory e'.curr_episode = some (acts ++ [a]) ∧
    pyGet e'.obs_episode_memory e'.curr_episode = some (obss ++ [[q]]) := by
  obtain ⟨-, -, am, om, reward, hm, -, hom, -, he'⟩ := gtz_step_ok_inv h
  have h1 := pyGet_pyModify_self hm hacts
  have h2 := pyGet_pyModify_self hom hobss
  have hce : e'.curr_episode = e.curr_episode := by rw [he']
  have hA : e'.action_episode_memory = am := by rw [he']
  have hO : e'.obs_episode_memory = om := by rw [he']
  rw [hce, hA, hO]
  exact ⟨h1, h2⟩

theorem tir_step_ok_active {e : TIREnv} {a : ℤ} {b : Bool}
    {out : List ℤ × ℤ × Bool} {e' : TIREnv}
    {acts : List ℤ} {obss : List (List ℤ)}
    (h : e.step a b = (.ok out, e'))
    (hacts : pyGet e.action_episode_memory e.curr_episode = some acts)
    (hobss : pyGet e.obs_episode_memory e.curr_episode = some obss) :
    pyGet e'.action_episode_memory e'.curr_episode = some (acts ++ [a]) ∧
    pyGet e'.obs_episode_memory e'.curr_episode =
      some (obss ++ [TIREnv.get_obs b]) := by
  obtain ⟨-, -, am, om, reward, hm, -, hom, -, he'⟩ := tir_step_ok_inv h
  have h1 := pyGet_pyModify_self hm hacts
  have h2 := pyGet_pyModify_self hom hobss
  have hce : e'.curr_episode = e.curr_episode := by rw [he']
  have hA : e'.action_episode_memory = am := by rw [he']
  have hO : e'.obs_episode_memory = om := by rw [he']
  rw [hce, hA, hO]
  exact ⟨h1, h2⟩

theorem gtz_runSteps_active (ms : List (ℤ × ℚ)) :
    ∀ (e e' : GTZEnv) (acts : List ℤ) (obss : List (List ℚ)),
    GTZEnv.runSteps e ms = some e' →
    pyGet e.action_episode_memory e.curr_episode = some acts →
    pyGet e.obs_episode_memory e.curr_episode = some obss →
    ∃ acts2 obss2,
      pyGet e'.action_episode_memory e'.curr_episode = some acts2 ∧
      pyGet e'.obs_episode_memory e'.curr_episode = some obss2 ∧
      acts2.length = acts.length + ms.length ∧
      obss2.length = obss.length + ms.length := by
  induction ms with
  | nil =>
    intro e e' acts obss h hacts hobss
    unfold GTZEnv.runSteps at h
    obtain rfl := Option.some.inj h
    exact ⟨acts, obss, hacts, hobss, by simp, by simp⟩
  | cons m rest ih =>
    intro e e' acts obss h hacts hobss
    obtain ⟨a, q⟩ := m
    unfold GTZEnv.runSteps at h
    split at h
    next out e1 heq =>
      obtain ⟨ha1, ho1⟩ := gtz_step_ok_active heq hacts hobss
      obtain ⟨acts2, obss2, h1, h2, h3, h4⟩ := ih e1 e' _ _ h ha1 ho1
      exact ⟨acts2, obss2, h1, h2, by simp at h3 ⊢; omega,
        by simp at h4 ⊢; omega⟩
    next => exact Option.noConfusion h

theorem tir_runSteps_active (ms : List (ℤ × Bool)) :
    ∀ (e e' : TIREnv) (acts : List ℤ) (obss : List (List ℤ)),
    TIREnv.runSteps e ms = some e' →
    pyGet e.action_episode_memory e.curr_episode = some acts →
    pyGet e.obs_episode_memory e.curr_episode = some obss →
    ∃ acts2 obss2,
      pyGet e'.action_episode_memory e'.curr_episode = some acts2 ∧
      pyGet e'.obs_episode_memory e'.curr_episode = some obss2 ∧
      acts2.length = acts.length + ms.length ∧
      obss2.length = obss.length + ms.length := by
  induction ms with
  | nil =>
    intro e e' acts obss h hacts hobss
    unfold TIREnv.runSteps at h
    obtain rfl := Option.some.inj h
    exact ⟨acts, obss, hacts, hobss, by simp, by simp⟩
  | cons m rest ih =>
    intro e e' acts obss h hacts hobss
    obtain ⟨a, b⟩ := m
    unfold TIREnv.runSteps at h
    split at h
    next out e1 heq =>
      obtain ⟨ha1, ho1⟩ := tir_step_ok_active heq hacts hobss
      obtain ⟨acts2, obss2, h1, h2, h3, h4⟩ := ih e1 e' _ _ h ha1 ho1
      exact ⟨acts2, obss2, h1, h2, by simp at h3 ⊢; omega,
        by simp at h4 ⊢; omega⟩
    next => exact Option.noConfusion h

theorem gtz_step_exhausted_eq (e : GTZEnv) (a : ℤ) (q : ℚ)
    (h : e.max_steps_per_episode ≤ e.curr_step) :
    e.step a q = (.error .episodeExhausted, e) := by
  unfold GTZEnv.step
  rw [if_pos h]

theorem tir_step_exhausted_eq (e : TIREnv) (a : ℤ) (b : Bool)
    (h : e.max_steps_per_episode ≤ e.curr_step) :
    e.step a b = (.error .episodeExhausted, e) := by
  unfold TIREnv.step
  rw [if_pos h]

theorem gtz_step_invalid_eq (e : GTZEnv) (a : ℤ) (q : ℚ)
    (am : List (List ℤ))
    (hrun : e.curr_step < e.max_steps_per_episode)
    (ha : ¬(a = 0 ∨ a = 1))
    (hm : pyModify e.action_episode_memory e.curr_episode
      (fun l => l ++ [a]) = some am) :
    e.step a q = (.error .invalidAction, { e with
      curr_step := e.curr_step + 1
      action_episode_memory := am }) := by
  unfold GTZEnv.step
  rw [if_neg (by omega)]
  simp only [hm]
  rw [if_neg ha]

theorem pyGet_cons_zero (x : α) (l : List α) : pyGet (x :: l) 0 = some x := by
  unfold pyGet pyIndex
  rw [if_pos le_rfl, if_pos (by exact_mod_cast Nat.succ_pos l.length)]
  rfl

theorem gtz_get_reward_eval {e : GTZEnv} {acts : List ℤ} {a : ℤ}
    {obss : List (List ℚ)} {last_obs : List ℚ} {o : ℚ}
    (hacts : pyGet e.action_episode_memory e.curr_episode = some acts)
    (hlastact : pyGet acts (-1) = some a)
    (hobss : pyGet e.obs_episode_memory e.curr_episode = some obss)
    (hlast : pyGet obss (-1) = some last_obs)
    (ho : pyGet last_obs 0 = some o) :
    e.get_reward = some (if 0 < o then (if a = 1 then 1 else -1)
      else (if a = 1 then -1 else 1)) := by
  unfold GTZEnv.get_reward
  simp only [hacts, hlastact, hobss, hlast, ho, Option.bind_eq_bind,
    Option.some_bind, Option.pure_def]
  by_cases hpos : 0 < o
  · rw [if_pos hpos, if_pos hpos]
  · rw [if_neg hpos, if_neg hpos]

theorem exists_concat_two {l : List α} (h : 2 ≤ l.length) :
    ∃ l' x y, l = l' ++ [x, y] := by
  rcases l.eq_nil_or_concat with rfl | ⟨l1, y, rfl⟩
  · simp at h
  rcases l1.eq_nil_or_concat with rfl | ⟨l2, x, rfl⟩
  · simp at h
  exact ⟨l2, x, y, by simp⟩

theorem pySliceFrom_concat_two (l : List α) (x y : α) :
    pySliceFrom (l ++ [x, y]) (-2) = [x, y] := by
  unfold pySliceFrom
  rw [if_neg (by norm_num)]
  have hlen : (l ++ [x, y]).length = l.length + 2 := by simp
  rw [hlen]
  have : l.length + 2 - (-(-2 : ℤ)).toNat = l.length := by
    norm_num
    rfl
  rw [this, List.drop_left]

theorem getLast?_concat_two (l : List α) (x y : α) :
    (l ++ [x, y]).getLast? = some y := by
  have : l ++ [x, y] = (l ++ [x]) ++ [y] := by simp
  rw [this, List.getLast?_concat]

theorem dropLast_getLast?_concat_two (l : List α) (x y : α) :
    (l ++ [x, y]).dropLast.getLast? = some x := by
  have : l ++ [x, y] = (l ++ [x]) ++ [y] := by simp
  rw [this, List.dropLast_concat, List.getLast?_concat]

theorem tir_get_reward_eval {e : TIREnv} {acts : List ℤ} {a : ℤ}
    {obss : List (List ℤ)}
    (hacts : pyGet e.action_episode_memory e.curr_episode = some acts)
    (hlastact : pyGet acts (-1) = some a)
    (hobss : pyGet e.obs_episode_memory e.curr_episode = some obss) :
    e.get_reward = some (if obss.length < 2 then (if a = 0 then 1 else -1)
      else if obss.getLast? = obss.dropLast.getLast? then
        (if a = 1 then 1 else -1)
      else (if a = 0 then 1 else -1)) := by
  unfold TIREnv.get_reward
  simp only [hacts, hlastact, hobss, Option.bind_eq_bind, Option.some_bind,
    Option.pure_def]
  by_cases hlen : obss.length < 2
  · rw [if_pos hlen, if_pos hlen]
  · rw [if_neg hlen, if_neg hlen]
    obtain ⟨l', x, y, rfl⟩ := @exists_concat_two _ obss (by omega)
    have h1 : pyGet [x, y] 1 = some y := by
      unfold pyGet pyIndex
      rw [if_pos (by norm_num), if_pos (by norm_num)]
      rfl
    simp only [pySliceFrom_concat_two, pyGet_cons_zero, h1,
      Option.bind_eq_bind, Option.some_bind, Option.pure_def,
      getLast?_concat_two, dropLast_getLast?_concat_two]
    by_cases hxy : x = y
    · subst hxy
      simp
    · have hyx : ¬ (some y = some x) := by
        simp only [Option.some.injEq]
        exact fun h2 => hxy h2.symm
      rw [if_neg hxy, if_neg hyx]

/-! ## Claim theorems -/

/-- C4: whenever the current episode has already reached
`max_steps_per_episode` steps, every further `step` call fails with the
EpisodeExhausted error and returns the environment state entirely
unchanged (episode index, step count and both histories), in both
environment variants. -/
theorem step_after_done_rejected :
    (∀ (e : GTZEnv) (a : ℤ) (q : ℚ),
       e.max_steps_per_episode ≤ e.curr_step →
       e.step a q = (.error .episodeExhausted, e)) ∧
    (∀ (e : TIREnv) (a : ℤ) (b : Bool),
       e.max_steps_per_episode ≤ e.curr_step →
       e.step a b = (.error .episodeExhausted, e)) :=
  ⟨fun e a q h => gtz_step_exhausted_eq e a q h,
   fun e a b h => tir_step_exhausted_eq e a b h⟩

theorem step_after_done_rejected_witness :
    (GTZEnv.init 0).max_steps_per_episode ≤ (GTZEnv.init 0).curr_step ∧
    (GTZEnv.init 0).step 1 0 = (.error .episodeExhausted, GTZEnv.init 0) :=
  ⟨by decide, step_after_done_rejected.1 (GTZEnv.init 0) 1 0 (by decide)⟩

/-- C10: on every state reachable by any sequence of `reset`/`step` calls
(including calls that raise errors) in either environment variant, the
invariant `0 ≤ curr_step ≤ max_steps_per_episode` holds whenever the
configured `max_steps_per_episode` is nonnegative. -/
theorem curr_step_within_bounds :
    (∀ e : GTZEnv, GTZReachable e → 0 ≤ e.max_steps_per_episode →
       0 ≤ e.curr_step ∧ e.curr_step ≤ e.max_steps_per_episode) ∧
    (∀ e : TIREnv, TIRReachable e → 0 ≤ e.max_steps_per_episode →
       0 ≤ e.curr_step ∧ e.curr_step ≤ e.max_steps_per_episode) := by
  constructor
  · intro e hr
    induction hr with
    | init m => exact fun h => ⟨le_refl 0, h⟩
    | reset e0 q h ih => exact fun hm => ⟨le_refl 0, hm⟩
    | step e0 a q h ih =>
      intro hm
      obtain ⟨hmax, -, hcs⟩ := gtz_step_state_post e0 a q
      rw [hmax] at hm
      obtain ⟨h1, h2⟩ := ih hm
      rcases hcs with h3 | ⟨h3, h4⟩ <;> rw [hmax, h3] <;> omega
  · intro e hr
    induction hr with
    | init m => exact fun h => ⟨le_refl 0, h⟩
    | reset e0 b h ih => exact fun hm => ⟨le_refl 0, hm⟩
    | step e0 a b h ih =>
      intro hm
      obtain ⟨hmax, -, hcs⟩ := tir_step_state_post e0 a b
      rw [hmax] at hm
      obtain ⟨h1, h2⟩ := ih hm
      rcases hcs with h3 | ⟨h3, h4⟩ <;> rw [hmax, h3] <;> omega

theorem curr_step_within_bounds_witness :
    GTZReachable (GTZEnv.init 5) ∧
    ((0 : ℤ) ≤ (GTZEnv.init 5).max_steps_per_episode ∧
     (0 ≤ (GTZEnv.init 5).curr_step ∧
      (GTZEnv.init 5).curr_step ≤ (GTZEnv.init 5).max_steps_per_episode)) :=
  ⟨GTZReachable.init 5, by decide,
   curr_step_within_bounds.1 (GTZEnv.init 5) (GTZReachable.init 5)
     (by decide)⟩

/-- C3: within an episode (a `reset` followed by a sequence of successful
`step` calls), the `done` flag returned by the next successful `step` is
true exactly when its post-increment step count (number of prior steps
plus one) equals `max_steps_per_episode`, and false on every earlier call;
this holds for both environment variants. -/
theorem done_iff_post_increment_count_max :
    (∀ (e : GTZEnv) (q : ℚ) (ms : List (ℤ × ℚ)) (e1 : GTZEnv),
       GTZEnv.runSteps ((e.reset q).2) ms = some e1 →
       ∀ (a : ℤ) (q2 : ℚ) (out : List ℚ × ℤ × Bool) (e2 : GTZEnv),
         e1.step a q2 = (.ok out, e2) →
         (out.2.2 = true ↔ (ms.length : ℤ) + 1 = e.max_steps_per_episode)) ∧
    (∀ (e : TIREnv) (b : Bool) (ms : List (ℤ × Bool)) (e1 : TIREnv),
       TIREnv.runSteps ((e.reset b).2) ms = some e1 →
       ∀ (a : ℤ) (b2 : Bool) (out : List ℤ × ℤ × Bool) (e2 : TIREnv),
         e1.step a b2 = (.ok out, e2) →
         (out.2.2 = true ↔ (ms.length : ℤ) + 1 = e.max_steps_per_episode)) := by
  constructor
  · intro e q ms e1 hrun a q2 out e2 hstep
    obtain ⟨hcs, hmax⟩ := gtz_runSteps_facts ms _ e1 hrun
    have hrs : ((e.reset q).2).curr_step = 0 := rfl
    have hrm : ((e.reset q).2).max_steps_per_episode
        = e.max_steps_per_episode := rfl
    rw [hrs] at hcs
    rw [hrm] at hmax
    obtain ⟨hlt, -, am, om, reward0, -, -, -, hout, -⟩ :=
      gtz_step_ok_inv hstep
    obtain ⟨ob, reward, d⟩ := out
    simp only [Prod.mk.injEq] at hout
    obtain ⟨-, -, hd⟩ := hout
    show d = true ↔ _
    subst hd
    simp only [decide_eq_true_eq, ge_iff_le]
    omega
  · intro e b ms e1 hrun a b2 out e2 hstep
    obtain ⟨hcs, hmax⟩ := tir_runSteps_facts ms _ e1 hrun
    have hrs : ((e.reset b).2).curr_step = 0 := rfl
    have hrm : ((e.reset b).2).max_steps_per_episode
        = e.max_steps_per_episode := rfl
    rw [hrs] at hcs
    rw [hrm] at hmax
    obtain ⟨hlt, -, am, om, reward0, -, -, -, hout, -⟩ :=
      tir_step_ok_inv hstep
    obtain ⟨ob, reward, d⟩ := out
    simp only [Prod.mk.injEq] at hout
    obtain ⟨-, -, hd⟩ := hout
    show d = true ↔ _
    subst hd
    simp only [decide_eq_true_eq, ge_iff_le]
    omega

theorem done_iff_post_increment_count_max_witness :
    GTZEnv.runSteps (((GTZEnv.init 1).reset 1).2) [] = some GTZM1 ∧
    ∃ out e2, GTZM1.step 1 0 = (.ok out, e2) ∧
      (out.2.2 = true ↔
       ((List.length ([] : List (ℤ × ℚ)) : ℤ) + 1 =
        (GTZEnv.init 1).max_steps_per_episode)) := by
  have hrun : GTZEnv.runSteps (((GTZEnv.init 1).reset 1).2) [] = some GTZM1 :=
    by decide
  have hstep : GTZM1.step 1 0 = (.ok ([0], 1, true), (GTZM1.step 1 0).2) :=
    by decide
  exact ⟨hrun, ([0], 1, true), (GTZM1.step 1 0).2, hstep,
    done_iff_post_increment_count_max.1 (GTZEnv.init 1) 1 [] GTZM1 hrun
      1 0 ([0], 1, true) (GTZM1.step 1 0).2 hstep⟩

/-- C2: immediately after `reset` (k = 0) and after every sequence of k
successful `step` calls within the episode, the active episode record of
the sign-detection environment has an action log of length k and an
observation log of length k + 1 (so `len(observations) =
len(actions) + 1` throughout). -/
theorem episode_record_lengths (e : GTZEnv)
    (hA : e.curr_episode + 1 = (e.action_episode_memory.length : ℤ))
    (hO : e.curr_episode + 1 = (e.obs_episode_memory.length : ℤ))
    (q : ℚ) (ms : List (ℤ × ℚ)) (e' : GTZEnv)
    (h : GTZEnv.runSteps ((e.reset q).2) ms = some e') :
    ∃ acts obss,
      pyGet e'.action_episode_memory e'.curr_episode = some acts ∧
      pyGet e'.obs_episode_memory e'.curr_episode = some obss ∧
      acts.length = ms.length ∧
      obss.length = ms.length + 1 := by
  have hacts : pyGet ((e.reset q).2).action_episode_memory
      ((e.reset q).2).curr_episode = some [] := by
    show pyGet (e.action_episode_memory ++ [[]]) (e.curr_episode + 1)
      = some []
    rw [hA]
    exact pyGet_concat_last _ _
  have hobss : pyGet ((e.reset q).2).obs_episode_memory
      ((e.reset q).2).curr_episode = some [[q]] := by
    show pyGet (e.obs_episode_memory ++ [[[q]]]) (e.curr_episode + 1)
      = some [[q]]
    rw [hO]
    exact pyGet_concat_last _ _
  obtain ⟨acts2, obss2, h1, h2, h3, h4⟩ :=
    gtz_runSteps_active ms _ e' [] [[q]] h hacts hobss
  refine ⟨acts2, obss2, h1, h2, ?_, ?_⟩
  · simpa using h3
  · simp at h4
    omega

theorem episode_record_lengths_witness :
    ((GTZEnv.init 100).curr_episode + 1 =
      ((GTZEnv.init 100).action_episode_memory.length : ℤ)) ∧
    ∃ acts obss,
      pyGet GTZW1.action_episode_memory GTZW1.curr_episode = some acts ∧
      pyGet GTZW1.obs_episode_memory GTZW1.curr_episode = some obss ∧
      acts.length = 1 ∧ obss.length = 2 :=
  ⟨by decide,
   episode_record_lengths (GTZEnv.init 100) (by decide) (by decide)
     (mkRat 1 2) [(1, 0)] GTZW1 (by rfl)⟩

/-- C6: in the sign-detection environment, when the most recent recorded
observation before a successful `step` is the singleton `[o]` and the
action just taken is `a`, the returned reward is +1 if (`o > 0` and
`a = 1`) or (`o ≤ 0` and `a = 0`), and -1 otherwise. -/
theorem sign_detection_reward (e : GTZEnv) (a : ℤ) (q : ℚ)
    (out : List ℚ × ℤ × Bool) (e' : GTZEnv)
    (obss : List (List ℚ)) (last_obs : List ℚ) (o : ℚ)
    (h : e.step a q = (.ok out, e'))
    (hobss : pyGet e.obs_episode_memory e.curr_episode = some obss)
    (hlast : pyGet obss (-1) = some last_obs)
    (ho : pyGet last_obs 0 = some o) :
    out.2.1 = if (0 < o ∧ a = 1) ∨ (o ≤ 0 ∧ a = 0) then 1 else -1 := by
  obtain ⟨-, hval, am, om, reward, hm, hr, -, hout, -⟩ :=
    gtz_step_ok_inv h
  obtain ⟨n, hidx, -⟩ := pyModify_some_inv hm
  obtain ⟨acts, -, hacts⟩ := pyGet_eq_some_of_pyIndex hidx
  have ham := pyGet_pyModify_self hm hacts
  have hr2 := @gtz_get_reward_eval { e with
      curr_step := e.curr_step + 1
      action_episode_memory := am }
    (acts ++ [a]) a obss last_obs o ham (pyGet_concat_neg_one acts a)
    hobss hlast ho
  have hreq : reward = (if 0 < o then (if a = 1 then 1 else -1)
      else (if a = 1 then -1 else 1)) :=
    Option.some.inj (hr.symm.trans hr2)
  rw [hout]
  show reward = _
  rw [hreq]
  rcases hval with rfl | rfl
  · by_cases hpos : 0 < o
    · simp [hpos, not_le.mpr hpos]
    · simp [hpos, not_lt.mp hpos]
  · by_cases hpos : 0 < o
    · simp [hpos, not_le.mpr hpos]
    · simp [hpos, not_lt.mp hpos]

theorem sign_detection_reward_witness :
    GTZW.step 1 0 = (.ok ([0], 1, false), GTZW1) ∧
    pyGet GTZW.obs_episode_memory GTZW.curr_episode = some [[mkRat 1 2]] ∧
    pyGet [[mkRat 1 2]] (-1 : ℤ) = some [mkRat 1 2] ∧
    pyGet [mkRat 1 2] (0 : ℤ) = some (mkRat 1 2) ∧
    (([0], (1 : ℤ), false) : List ℚ × ℤ × Bool).2.1 =
      (if ((0 : ℚ) < mkRat 1 2 ∧ (1 : ℤ) = 1) ∨
          (mkRat 1 2 ≤ (0 : ℚ) ∧ (1 : ℤ) = 0) then 1 else -1) := by
  have h1 : GTZW.step 1 0 = (.ok ([0], 1, false), GTZW1) := rfl
  have h2 : pyGet GTZW.obs_episode_memory GTZW.curr_episode
      = some [[mkRat 1 2]] := rfl
  have h3 : pyGet [[mkRat 1 2]] (-1 : ℤ) = some [mkRat 1 2] := rfl
  have h4 : pyGet [mkRat 1 2] (0 : ℤ) = some (mkRat 1 2) := rfl
  exact ⟨h1, h2, h3, h4,
    sign_detection_reward GTZW 1 0 ([0], 1, false) GTZW1 [[mkRat 1 2]]
      [mkRat 1 2] (mkRat 1 2) h1 h2 h3 h4⟩

/-- C7: in the consecutive-match environment, a successful `step` taking
action `a` returns reward +1 iff `a = 0` on the first step of the episode
(fewer than two recorded observations); on later steps it returns +1 iff
`a = 1` when the two most recent observations recorded prior to the step
are equal, and +1 iff `a = 0` when they differ; the reward is -1 in all
the remaining cases. -/
theorem two_in_a_row_reward (e : TIREnv) (a : ℤ) (b : Bool)
    (out : List ℤ × ℤ × Bool) (e' : TIREnv) (obss : List (List ℤ))
    (h : e.step a b = (.ok out, e'))
    (hobss : pyGet e.obs_episode_memory e.curr_episode = some obss) :
    out.2.1 = if obss.length < 2 then (if a = 0 then 1 else -1)
      else if obss.getLast? = obss.dropLast.getLast? then
        (if a = 1 then 1 else -1)
      else (if a = 0 then 1 else -1) := by
  obtain ⟨-, -, am, om, reward, hm, hr, -, hout, -⟩ :=
    tir_step_ok_inv h
  obtain ⟨n, hidx, -⟩ := pyModify_some_inv hm
  obtain ⟨acts, -, hacts⟩ := pyGet_eq_some_of_pyIndex hidx
  have ham := pyGet_pyModify_self hm hacts
  have hr2 := @tir_get_reward_eval { e with
      curr_step := e.curr_step + 1
      action_episode_memory := am }
    (acts ++ [a]) a obss ham (pyGet_concat_neg_one acts a) hobss
  have hreq := Option.some.inj (hr.symm.trans hr2)
  rw [hout]
  show reward = _
  exact hreq

theorem two_in_a_row_reward_witness :
    TIRW.step 0 true = (.ok ([1], 1, false), (TIRW.step 0 true).2) ∧
    pyGet TIRW.obs_episode_memory TIRW.curr_episode = some [[1]] ∧
    (([1], (1 : ℤ), false) : List ℤ × ℤ × Bool).2.1 =
      (if ([[1]] : List (List ℤ)).length < 2 then
        (if (0 : ℤ) = 0 then 1 else -1)
       else if ([[1]] : List (List ℤ)).getLast?
           = ([[1]] : List (List ℤ)).dropLast.getLast? then
        (if (0 : ℤ) = 1 then 1 else -1)
       else (if (0 : ℤ) = 0 then 1 else -1)) := by
  have h1 : TIRW.step 0 true = (.ok ([1], 1, false), (TIRW.step 0 true).2) :=
    by decide
  have h2 : pyGet TIRW.obs_episode_memory TIRW.curr_episode = some [[1]] :=
    by decide
  exact ⟨h1, h2,
    two_in_a_row_reward TIRW 0 true ([1], 1, false) (TIRW.step 0 true).2
      [[1]] h1 h2⟩

/-- C8: `reset` is legal in every state; it increments the episode index by
exactly one (0 on the first call, and two consecutive resets give distinct
indices), resets the step count to 0, appends a fresh episode record whose
sole content is the newly generated initial observation, and returns that
observation, consistent with the variant's generator (an arbitrary
rational sample for sign-detection, 0 or 1 for consecutive-match). -/
theorem reset_contract :
    (∀ (e : GTZEnv) (q : ℚ),
       (e.reset q).2.curr_episode = e.curr_episode + 1 ∧
       (e.reset q).2.curr_step = 0 ∧
       (e.reset q).2.action_episode_memory
         = e.action_episode_memory ++ [[]] ∧
       (e.reset q).2.obs_episode_memory
         = e.obs_episode_memory ++ [[(e.reset q).1]] ∧
       (e.reset q).1 = [q] ∧
       (∀ q2 : ℚ, ((e.reset q).2.reset q2).2.curr_episode ≠
         (e.reset q).2.curr_episode)) ∧
    (∀ (m : ℤ) (q : ℚ), ((GTZEnv.init m).reset q).2.curr_episode = 0) ∧
    (∀ (e : TIREnv) (b : Bool),
       (e.reset b).2.curr_episode = e.curr_episode + 1 ∧
       (e.reset b).2.curr_step = 0 ∧
       (e.reset b).2.action_episode_memory
         = e.action_episode_memory ++ [[]] ∧
       (e.reset b).2.obs_episode_memory
         = e.obs_episode_memory ++ [[(e.reset b).1]] ∧
       (∃ v : ℤ, (e.reset b).1 = [v] ∧ (v = 0 ∨ v = 1)) ∧
       (∀ b2 : Bool, ((e.reset b).2.reset b2).2.curr_episode ≠
         (e.reset b).2.curr_episode)) ∧
    (∀ (m : ℤ) (b : Bool), ((TIREnv.init m).reset b).2.curr_episode = 0) := by
  refine ⟨fun e q => ⟨rfl, rfl, rfl, rfl, rfl, fun q2 => ?_⟩,
    fun m q => ?_, fun e b => ⟨rfl, rfl, rfl, rfl, ?_, fun b2 => ?_⟩,
    fun m b => ?_⟩
  · show e.curr_episode + 1 + 1 ≠ e.curr_episode + 1
    omega
  · show (-1 : ℤ) + 1 = 0
    decide
  · cases b
    · exact ⟨0, rfl, Or.inl rfl⟩
    · exact ⟨1, rfl, Or.inr rfl⟩
  · show e.curr_episode + 1 + 1 ≠ e.curr_episode + 1
    omega
  · show (-1 : ℤ) + 1 = 0
    decide

/-- C1 counterexample: from the freshly reset environment `GTZW`, calling
`step(2)` does raise InvalidAction, but the resulting state differs from
the pre-call state: the step counter was incremented and the invalid
action appended before the validation ran, refuting the claim that the
episode state is left unchanged. -/
theorem invalid_action_rollback_cex :
    (GTZW.step 2 0).1 = .error .invalidAction ∧
    (GTZW.step 2 0).2 ≠ GTZW ∧
    (GTZW.step 2 0).2.curr_step = GTZW.curr_step + 1 ∧
    (GTZW.step 2 0).2.action_episode_memory
      ≠ GTZW.action_episode_memory := by
  refine ⟨rfl, ?_, rfl, ?_⟩
  · intro hcontra
    have : (GTZW.step 2 0).2.curr_step = GTZW.curr_step := by rw [hcontra]
    revert this
    decide
  · decide

/-- C1 (amended): `step` with an action outside {0, 1} on a non-exhausted
episode whose active record exists fails with the InvalidAction error and
leaves the observation log and episode index unchanged, but — the
validation running only after the bookkeeping — the step counter has
already been incremented by one and the invalid action has already been
appended to the action log. -/
theorem invalid_action_partial_mutation (e : GTZEnv) (a : ℤ) (q : ℚ)
    (am : List (List ℤ))
    (hrun : e.curr_step < e.max_steps_per_episode)
    (ha : ¬(a = 0 ∨ a = 1))
    (hm : pyModify e.action_episode_memory e.curr_episode
      (fun l => l ++ [a]) = some am) :
    e.step a q = (.error .invalidAction, { e with
      curr_step := e.curr_step + 1
      action_episode_memory := am }) :=
  gtz_step_invalid_eq e a q am hrun ha hm

theorem invalid_action_partial_mutation_witness :
    GTZW.curr_step < GTZW.max_steps_per_episode ∧
    ¬((2 : ℤ) = 0 ∨ (2 : ℤ) = 1) ∧
    pyModify GTZW.action_episode_memory GTZW.curr_episode
      (fun l => l ++ [2]) = some [[2]] ∧
    GTZW.step 2 0 = (.error .invalidAction, { GTZW with
      curr_step := GTZW.curr_step + 1
      action_episode_memory := [[2]] }) :=
  ⟨by decide, by decide, by rfl,
   invalid_action_partial_mutation GTZW 2 0 [[2]] (by decide) (by decide)
     (by rfl)⟩

/-- C5 counterexample: on an exhausted episode (`max_steps_per_episode` 0)
the invalid action 2 makes `step` fail with EpisodeExhausted, not with
InvalidAction, refuting the claim that action validation is independent of
episode status. -/
theorem invalid_action_on_exhausted_cex :
    ((GTZEnv.init 0).step 2 0).1 = .error .episodeExhausted ∧
    ((GTZEnv.init 0).step 2 0).1 ≠ .error .invalidAction := by
  decide

/-- C5 (amended): `step` validates the action only after the episode
exhaustion check: on a non-exhausted episode whose active record exists an
action outside {0, 1} fails with InvalidAction, while on an exhausted
episode `step` fails with EpisodeExhausted regardless of the action
supplied. -/
theorem action_validation_order :
    (∀ (e : GTZEnv) (a : ℤ) (q : ℚ) (am : List (List ℤ)),
       e.curr_step < e.max_steps_per_episode → ¬(a = 0 ∨ a = 1) →
       pyModify e.action_episode_memory e.curr_episode
         (fun l => l ++ [a]) = some am →
       (e.step a q).1 = .error .invalidAction) ∧
    (∀ (e : GTZEnv) (a : ℤ) (q : ℚ),
       e.max_steps_per_episode ≤ e.curr_step →
       (e.step a q).1 = .error .episodeExhausted) := by
  constructor
  · intro e a q am h1 h2 h3
    rw [gtz_step_invalid_eq e a q am h1 h2 h3]
  · intro e a q h
    rw [gtz_step_exhausted_eq e a q h]

theorem action_validation_order_witness :
    (GTZW.curr_step < GTZW.max_steps_per_episode ∧
     (GTZW.step 2 0).1 = .error .invalidAction) ∧
    ((GTZEnv.init 0).max_steps_per_episode ≤ (GTZEnv.init 0).curr_step ∧
     ((GTZEnv.init 0).step 2 0).1 = .error .episodeExhausted) :=
  ⟨⟨by decide, action_validation_order.1 GTZW 2 0 [[2]] (by decide)
      (by decide) (by rfl)⟩,
   ⟨by decide, action_validation_order.2 (GTZEnv.init 0) 2 0 (by decide)⟩⟩

/-- C9: `q_values` queries the supplied model on exactly the four fixed
two-step observation sequences [0,0], [1,1], [0,1], [1,0], in that order,
returns the rendered table whose rows pair each sequence's label with the
model's per-action prediction row for it, and leaves the environment state
unchanged. -/
theorem q_values_contract (e : TIREnv)
    (predict : List (List ℤ) → List (List ℚ))
    (tab : List String → List (String × List ℚ) → String)
    (h : ∀ inp ∈ TIREnv.q_values_inputs, predict inp ≠ []) :
    TIREnv.q_values_inputs
      = [[[0], [0]], [[1], [1]], [[0], [1]], [[1], [0]]] ∧
    (e.q_values predict tab).2 = e ∧
    (e.q_values predict tab).1 = .ok ("\n" ++
      tab ["Obs. Seq", "Action 0", "Action 1"]
        [("0,0", (predict [[0], [0]]).headD []),
         ("1,1", (predict [[1], [1]]).headD []),
         ("0,1", (predict [[0], [1]]).headD []),
         ("1,0", (predict [[1], [0]]).headD [])] ++ "\n") := by
  refine ⟨rfl, ?_, ?_⟩
  · unfold TIREnv.q_values
    split <;> rfl
  · obtain ⟨v0, t0, hv0⟩ := List.exists_cons_of_ne_nil
      (h [[0], [0]] (by simp [TIREnv.q_values_inputs]))
    obtain ⟨v1, t1, hv1⟩ := List.exists_cons_of_ne_nil
      (h [[1], [1]] (by simp [TIREnv.q_values_inputs]))
    obtain ⟨v2, t2, hv2⟩ := List.exists_cons_of_ne_nil
      (h [[0], [1]] (by simp [TIREnv.q_values_inputs]))
    obtain ⟨v3, t3, hv3⟩ := List.exists_cons_of_ne_nil
      (h [[1], [0]] (by simp [TIREnv.q_values_inputs]))
    have hs0 : String.intercalate ","
        [toString (0 : ℤ), toString (0 : ℤ)] = "0,0" := rfl
    have hs1 : String.intercalate ","
        [toString (1 : ℤ), toString (1 : ℤ)] = "1,1" := rfl
    have hs2 : String.intercalate ","
        [toString (0 : ℤ), toString (1 : ℤ)] = "0,1" := rfl
    have hs3 : String.intercalate ","
        [toString (1 : ℤ), toString (0 : ℤ)] = "1,0" := rfl
    unfold TIREnv.q_values TIREnv.q_values_inputs
    simp [TIREnv.q_values_rows, TIREnv.q_values_row, TIREnv.q_values_strs,
      hv0, hv1, hv2, hv3, pyGet_cons_zero, hs0, hs1, hs2, hs3]

theorem q_values_contract_witness :
    (∀ inp ∈ TIREnv.q_values_inputs,
       (fun _ : List (List ℤ) => [[(3 : ℚ), 4]]) inp ≠ []) ∧
    (TIREnv.q_values_inputs
       = [[[0], [0]], [[1], [1]], [[0], [1]], [[1], [0]]] ∧
     ((TIREnv.init 5).q_values (fun _ : List (List ℤ) => [[(3 : ℚ), 4]])
        (fun _ _ => "T")).2 = TIREnv.init 5 ∧
     ((TIREnv.init 5).q_values (fun _ : List (List ℤ) => [[(3 : ℚ), 4]])
        (fun _ _ => "T")).1 = .ok ("\n" ++
       (fun _ _ => "T") ["Obs. Seq", "Action 0", "Action 1"]
         [("0,0", ([[(3 : ℚ), 4]] : List (List ℚ)).headD []),
          ("1,1", ([[(3 : ℚ), 4]] : List (List ℚ)).headD []),
          ("0,1", ([[(3 : ℚ), 4]] : List (List ℚ)).headD []),
          ("1,0", ([[(3 : ℚ), 4]] : List (List ℚ)).headD [])] ++ "\n")) :=
  ⟨fun inp hinp => by simp,
   q_values_contract (TIREnv.init 5) (fun _ => [[(3 : ℚ), 4]])
     (fun _ _ => "T") (fun inp hinp => by simp)⟩
